import Mathlib

/-!
Verification of `update_feeds.py` (brmtonline/feeds-mtonline).

The Python source is shallowly embedded below.  Text is modelled as
`List Char` (Python `str` is a sequence of unicode code points) with
`String` wrappers at the interfaces that mirror the Python function
signatures.  Network access (`requests.get`) and HTML parsing
(`BeautifulSoup`) are modelled as explicit oracles passed to the embedded
functions; file writes (`salvar_xml`) are modelled as explicit state in a
`Files` record threaded through `main`.
-/

set_option maxHeartbeats 1000000
set_option maxRecDepth 8192

namespace MTOnline

/-- The whitespace class used by Python's `re` module (`\s`) and by
`str.strip` on `str` inputs: ASCII whitespace plus the unicode whitespace
code points.  `limpar_texto` and `criar_paragrafos` are stated over this
single class; the proofs below only use that `' '`, `'\t'`, `'\n'` and
`'\r'` belong to it and that `' '` is a member. -/
def isPyWs (c : Char) : Bool :=
  c == ' ' || c == '\t' || c == '\n' || c == '\r' || c == '\x0b' || c == '\x0c' ||
  c == '\x1c' || c == '\x1d' || c == '\x1e' || c == '\x1f' || c == '\x85' || c == '\xa0' ||
  c == '\u1680' || c == '\u2000' || c == '\u2001' || c == '\u2002' || c == '\u2003' ||
  c == '\u2004' || c == '\u2005' || c == '\u2006' || c == '\u2007' || c == '\u2008' ||
  c == '\u2009' || c == '\u200a' || c == '\u2028' || c == '\u2029' || c == '\u202f' ||
  c == '\u205f' || c == '\u3000'

/-- Line 15: `txt.replace("\r", " ").replace("\n", " ")`. -/
def replaceCrLf (l : List Char) : List Char :=
  l.map (fun c => if c = '\r' then ' ' else if c = '\n' then ' ' else c)

/-- Line 16: `re.sub(r"\s+", " ", txt)` — every maximal whitespace run is
replaced by a single space.  The boolean argument records whether the
previously consumed character was whitespace (i.e. whether we are inside a
run that has already emitted its space). -/
def collapseWs : Bool → List Char → List Char
  | _, [] => []
  | true, c :: cs =>
    if isPyWs c then collapseWs true cs else c :: collapseWs false cs
  | false, c :: cs =>
    if isPyWs c then ' ' :: collapseWs true cs else c :: collapseWs false cs

/-- Leading-whitespace removal, as in Python `str.strip` (left half). -/
def pyStripLeft (l : List Char) : List Char := l.dropWhile isPyWs

/-- Trailing-whitespace removal, as in Python `str.strip` (right half). -/
def pyStripRight : List Char → List Char
  | [] => []
  | c :: cs =>
    match pyStripRight cs with
    | [] => if isPyWs c then [] else [c]
    | res => c :: res

/-- Python `str.strip()`: remove leading and trailing whitespace. -/
def pyStrip (l : List Char) : List Char := pyStripRight (pyStripLeft l)

/-- `limpar_texto` (src/update_feeds.py lines 14-17), on code-point lists:
replace CR/LF by spaces, collapse whitespace runs to single spaces, strip. -/
def limparCore (l : List Char) : List Char :=
  pyStrip (collapseWs false (replaceCrLf l))

/-- `limpar_texto` (src/update_feeds.py lines 14-17). -/
def limpar_texto (s : String) : String := String.mk (limparCore s.data)

/-- No two adjacent characters of the list are both whitespace. -/
def noAdjWs : List Char → Bool
  | [] => true
  | [_] => true
  | a :: b :: rest => (!(isPyWs a && isPyWs b)) && noAdjWs (b :: rest)

/-- The list contains no carriage return and no line feed. -/
def noCrLf (l : List Char) : Bool := l.all (fun c => !(c == '\r') && !(c == '\n'))

/-- The first character, if any, is not whitespace. -/
def headNotWs (l : List Char) : Bool :=
  match l.head? with
  | some c => !(isPyWs c)
  | none => true

/-- The last character, if any, is not whitespace. -/
def lastNotWs (l : List Char) : Bool :=
  match l.getLast? with
  | some c => !(isPyWs c)
  | none => true

/-- Python `s.rsplit(".", 1)[0]`: everything before the last `'.'`, or the
whole list when it contains no `'.'` (line 27 of src/update_feeds.py). -/
def rsplitLastDot (l : List Char) : List Char :=
  match l.reverse.dropWhile (fun c => !(c == '.')) with
  | [] => l
  | _ :: rest => rest.reverse

/-- The truncation step of `criar_paragrafos` (src/update_feeds.py lines
26-27): `if len(texto) > max_chars: texto = texto[:max_chars].rsplit(".", 1)[0] + "."`. -/
def truncar (texto : List Char) (max_chars : Nat) : List Char :=
  if max_chars < texto.length then rsplitLastDot (texto.take max_chars) ++ ['.'] else texto

/-- True when the accumulator's most recently consumed character (its head,
the accumulator being kept reversed) is `.`, `!` or `?`. -/
def punctHead : List Char → Bool
  | p :: _ => p == '.' || p == '!' || p == '?'
  | [] => false

/-- Line 30: `re.split(r"(?<=[.!?])\s+", texto)` — split on each maximal
whitespace run whose preceding character is `.`, `!` or `?`.  The first
argument accumulates the current piece in reverse. -/
def splitFrasesAux (acc : List Char) : List Char → List (List Char)
  | [] => [acc.reverse]
  | c :: cs =>
    if isPyWs c && punctHead acc then
      acc.reverse :: splitFrasesAux [] (cs.dropWhile isPyWs)
    else
      splitFrasesAux (c :: acc) cs
termination_by l => l.length
decreasing_by
  · exact Nat.lt_succ_of_le (List.Sublist.length_le (List.dropWhile_sublist isPyWs))
  · exact Nat.lt_succ_self cs.length

/-- The sentence split of `criar_paragrafos` (line 30). -/
def splitFrases (texto : List Char) : List (List Char) := splitFrasesAux [] texto

/-- `criar_paragrafos` (src/update_feeds.py lines 20-51): clean, truncate at
the last period within the cap, regroup sentences into at most three blocks
of at most `max_chars // 3` characters, and wrap each block in `<p>` tags
joined by blank lines.  Python's default argument `max_chars = 900` is
passed explicitly by the callers below. -/
def criar_paragrafos (textoS : String) (max_chars : Nat) : String :=
  let texto := limparCore textoS.data
  let texto := truncar texto max_chars
  let frases := splitFrases texto
  let step := fun (acc : List (List Char) × List Char) (f : List Char) =>
    let blocos := acc.1
    let bloco_atual := acc.2
    if bloco_atual.length + f.length < max_chars / 3 then
      (blocos, bloco_atual ++ (if bloco_atual = [] then [] else [' ']) ++ f)
    else
      ((if bloco_atual = [] then blocos else blocos ++ [pyStrip bloco_atual]), f)
  let acc := frases.foldl step ([], [])
  let blocos := if acc.2 = [] then acc.1 else acc.1 ++ [pyStrip acc.2]
  let blocos := if blocos = [] then [texto] else blocos
  let blocos := blocos.take 3
  String.mk (List.intercalate ['\n', '\n']
    ((blocos.filter (fun b => !(b.isEmpty))).map
      (fun b => '<' :: 'p' :: '>' :: (b ++ ['<', '/', 'p', '>']))))

/-- `extrair_conteudo_generico` (src/update_feeds.py lines 54-92).  The
network fetch (`requests.get` + `raise_for_status`) and the BeautifulSoup
container search (lines 65-87) are modelled together as the oracle `http`:
`Except.error e` is a raised request exception rendered as the string `e`,
and `Except.ok texto` is the paragraph text joined from the chosen
container (the empty string when no `<p>` was found, line 89). -/
def extrair_conteudo_generico (http : String → Except String String) (url : String) : String :=
  match http url with
  | Except.error e =>
      "<p>Não foi possível carregar o texto completo desta notícia. (" ++ e ++ ")</p>"
  | Except.ok texto =>
      if texto = "" then "<p>Texto da notícia não pôde ser extraído automaticamente.</p>"
      else criar_paragrafos texto 900

/-- A character counted as indentation by `textwrap.dedent`: space or tab. -/
def isIndentChar (c : Char) : Bool := c == ' ' || c == '\t'

/-- Split a character list at every `'\n'` (Python `text.split('\n')`):
a trailing newline yields a trailing empty line. -/
def splitNl : List Char → List (List Char)
  | [] => [[]]
  | c :: cs =>
    if c = '\n' then [] :: splitNl cs
    else
      match splitNl cs with
      | [] => [[c]]
      | l :: ls => (c :: l) :: ls

/-- Rejoin lines with `'\n'` (Python `'\n'.join`). -/
def joinNl (ls : List (List Char)) : List Char := List.intercalate ['\n'] ls

/-- `textwrap.dedent` step 1: a line consisting solely of spaces and tabs is
normalized to the empty line (`_whitespace_only_re.sub('', text)`). -/
def blankToEmpty (l : List Char) : List Char := if l.all isIndentChar then [] else l

/-- Longest common prefix of two character lists, as computed by the margin
loop inside `textwrap.dedent`. -/
def lcpChars : List Char → List Char → List Char
  | x :: xs, y :: ys => if x = y then x :: lcpChars xs ys else []
  | _, _ => []

/-- The common leading-whitespace margin of the lines that contain a
non-whitespace character (`textwrap.dedent`'s `margin`); `none` when no
line has content. -/
def marginOf (ls : List (List Char)) : Option (List Char) :=
  ls.foldl
    (fun m l =>
      if l.any (fun c => !(isIndentChar c)) then
        match m with
        | none => some (l.takeWhile isIndentChar)
        | some m0 => some (lcpChars m0 (l.takeWhile isIndentChar))
      else m)
    none

/-- `textwrap.dedent`, faithfully: empty the whitespace-only lines, compute
the common margin of the remaining lines, and remove that margin from the
start of every line that carries it. -/
def dedentCore (t : List Char) : List Char :=
  let lines := (splitNl t).map blankToEmpty
  let margin := (marginOf lines).getD []
  joinNl (lines.map (fun l => if margin.isPrefixOf l then l.drop margin.length else l))

/-- `textwrap.dedent` on strings. -/
def dedent (s : String) : String := String.mk (dedentCore s.data)

/-- One feed item, i.e. one of the dicts built by the collectors
(src/update_feeds.py lines 161-165): keys `titulo`, `link`, `descricao`;
the optional `pubDate` key models `item.get("pubDate", agora)` on line 118
(the collectors in this program never set it). -/
structure Item where
  titulo : String
  link : String
  descricao : String
  pubDate : Option String
deriving DecidableEq, Repr

/-- `gerar_xml` (src/update_feeds.py lines 95-130).  `agora` is the
`datetime.utcnow().strftime(...)` string of line 96, passed explicitly
because it is the only impure input.  Each of the three `textwrap.dedent`
calls receives the exact interpolated text of the source, including the
source-level indentation (8/10/12 spaces for the channel header, 12/14
spaces for item blocks with the `descricao` line at column 0, 10/8 spaces
for the footer) and the whitespace-only first/last lines. -/
def gerar_xml (cidade_nome : String) (base_link_mtonline : String) (itens : List Item)
    (agora : String) : String :=
  let xml := dedent
    ("        <?xml version=\"1.0\" encoding=\"UTF-8\"?>\n" ++
     "        <rss version=\"2.0\">\n" ++
     "          <channel>\n" ++
     "            <title>MT Online – Notícias de " ++ cidade_nome ++ "</title>\n" ++
     "            <link>" ++ base_link_mtonline ++ "</link>\n" ++
     "            <description>Principais notícias recentes de " ++ cidade_nome ++
       ", compiladas automaticamente pelo sistema do MT Online.</description>\n" ++
     "            <language>pt-BR</language>\n" ++
     "            <pubDate>" ++ agora ++ "</pubDate>\n" ++
     "            <lastBuildDate>" ++ agora ++ "</lastBuildDate>\n" ++
     "            <generator>MT Online + GitHub Actions</generator>\n" ++
     "    ")
  let xml := itens.foldl
    (fun xml item => xml ++ dedent
      ("            \n" ++
       "            <item>\n" ++
       "              <title>" ++ item.titulo ++ "</title>\n" ++
       "              <link>" ++ item.link ++ "</link>\n" ++
       "              <guid isPermaLink=\"true\">" ++ item.link ++ "</guid>\n" ++
       "              <pubDate>" ++ (item.pubDate.getD agora) ++ "</pubDate>\n" ++
       "              <description><![CDATA[\n" ++
       item.descricao ++ "\n" ++
       "              ]]></description>\n" ++
       "            </item>\n" ++
       "        "))
    xml
  xml ++ dedent ("          </channel>\n        </rss>\n    ")

/-- Scan for the needle as a prefix of some suffix of the haystack. -/
def substrInAux (needle : List Char) : List Char → Bool
  | [] => needle.isEmpty
  | c :: cs => List.isPrefixOf needle (c :: cs) || substrInAux needle cs

/-- Python `needle in hay` on strings: substring containment. -/
def substrIn (needle hay : String) : Bool := substrInAux needle.data hay.data

/-- Python `s.startswith(pre)`. -/
def pyStartsWith (s pre : String) : Bool := List.isPrefixOf pre.data s.data

/-- One anchor element of the listing page, as seen by
`soup.find_all("a", href=True)`: its `href` attribute and its visible text
`a.get_text()`.  The keep condition `a.get_text(strip=True)` is modelled
as the stripped text being non-empty. -/
structure Anchor where
  href : String
  text : String
deriving DecidableEq, Repr

/-- The keep condition of `coletar_colider` (line 156):
`"/Imprensa/Noticias/" in href and a.get_text(strip=True)`. -/
def keepColider (a : Anchor) : Bool :=
  substrIn "/Imprensa/Noticias/" a.href && !(pyStrip a.text.data).isEmpty

/-- The item built from a kept anchor by `coletar_colider` (lines 157-165).
`http` is the article-fetch oracle consumed by `extrair_conteudo_generico`. -/
def mkItemColider (http : String → Except String String) (a : Anchor) : Item :=
  let link := if pyStartsWith a.href "http" then a.href
              else "https://www.colider.mt.gov.br" ++ a.href
  { titulo := limpar_texto a.text
    link := link
    descricao := extrair_conteudo_generico http link
    pubDate := none }

/-- The first loop of `coletar_colider` (lines 152-165): the `itens` list
before deduplication, in page order. -/
def coletar_colider_itens (page : List Anchor) (http : String → Except String String) :
    List Item :=
  page.filterMap (fun a => if keepColider a then some (mkItemColider http a) else none)

/-- The dedup loop of `coletar_colider` (lines 167-173): `vistos` is the set
of already-seen links (a list here, membership-tested), first occurrence
kept, order preserved. -/
def dedupFirstAux (vistos : List String) : List Item → List Item
  | [] => []
  | it :: rest =>
    if it.link ∈ vistos then dedupFirstAux vistos rest
    else it :: dedupFirstAux (it.link :: vistos) rest

/-- `itens_unicos` for an initial empty `vistos` set. -/
def dedupFirst (itens : List Item) : List Item := dedupFirstAux [] itens

/-- `coletar_colider` (src/update_feeds.py lines 142-175).  The listing-page
fetch and HTML parse (lines 147-150) are modelled by passing the anchor
list `page` directly; `http` is the per-article fetch oracle.  Returns
`itens_unicos[:5]`. -/
def coletar_colider (page : List Anchor) (http : String → Except String String) :
    List Item :=
  (dedupFirst (coletar_colider_itens page http)).take 5

/-- The output files written by `main` (working-directory files
`colider.xml`, `guaranta.xml`, `peixoto.xml`, `altafloresta.xml`; the four
names are distinct, so the file system is modelled as four independent
string-valued cells). -/
structure Files where
  colider : String
  guaranta : String
  peixoto : String
  altafloresta : String
deriving DecidableEq, Repr

/-- The impure outcomes consumed by `main` (src/update_feeds.py lines
277-314): for each municipality, either the collector's item list or the
exception it raised (network errors propagate out of `coletar_*` since
`raise_for_status` is outside any local handler), plus an optional
exception raised by `salvar_xml` for that municipality's file (a failed
write is modelled atomically: exception logged, file unchanged). -/
structure Oracle where
  colider : Except String (List Item)
  guaranta : Except String (List Item)
  peixoto : Except String (List Item)
  alta : Except String (List Item)
  wColider : Option String
  wGuaranta : Option String
  wPeixoto : Option String
  wAlta : Option String

/-- The body of one `try/except` block of `main`, abstracted over the
municipality's display name, output file, log labels and oracle parts.
Returns the new file content and the printed log line. -/
def runCity (cidade base agora : String) (nomeErro msgOk : String)
    (collect : Except String (List Item)) (werr : Option String) (file : String) :
    String × String :=
  match collect with
  | Except.error e => (file, "Erro em " ++ nomeErro ++ ": " ++ e)
  | Except.ok itens =>
    match werr with
    | some e => (file, "Erro em " ++ nomeErro ++ ": " ++ e)
    | none => (gerar_xml cidade base itens agora, msgOk)

/-- `main` (src/update_feeds.py lines 277-314), written out as the four
sequential `try/except` blocks of the source.  `agora` is the render-time
string used by `gerar_xml`; the result is the final file state and the
four printed log lines in order. -/
def main (o : Oracle) (agora : String) (fs : Files) : Files × List String :=
  let base_mtonline := "https://www.mtonline.com.br"
  let r1 :=
    match o.colider with
    | Except.error e => (fs.colider, "Erro em Colíder: " ++ e)
    | Except.ok colider_itens =>
      match o.wColider with
      | some e => (fs.colider, "Erro em Colíder: " ++ e)
      | none => (gerar_xml "Colíder (MT)" base_mtonline colider_itens agora,
                 "Atualizado colider.xml")
  let r2 :=
    match o.guaranta with
    | Except.error e => (fs.guaranta, "Erro em Guarantã: " ++ e)
    | Except.ok guaranta_itens =>
      match o.wGuaranta with
      | some e => (fs.guaranta, "Erro em Guarantã: " ++ e)
      | none => (gerar_xml "Guarantã do Norte (MT)" base_mtonline guaranta_itens agora,
                 "Atualizado guaranta.xml")
  let r3 :=
    match o.peixoto with
    | Except.error e => (fs.peixoto, "Erro em Peixoto: " ++ e)
    | Except.ok peixoto_itens =>
      match o.wPeixoto with
      | some e => (fs.peixoto, "Erro em Peixoto: " ++ e)
      | none => (gerar_xml "Peixoto de Azevedo (MT)" base_mtonline peixoto_itens agora,
                 "Atualizado peixoto.xml")
  let r4 :=
    match o.alta with
    | Except.error e => (fs.altafloresta, "Erro em Alta Floresta: " ++ e)
    | Except.ok alta_itens =>
      match o.wAlta with
      | some e => (fs.altafloresta, "Erro em Alta Floresta: " ++ e)
      | none => (gerar_xml "Alta Floresta (MT)" base_mtonline alta_itens agora,
                 "Atualizado altafloresta.xml")
  (⟨r1.1, r2.1, r3.1, r4.1⟩, [r1.2, r2.2, r3.2, r4.2])

/-- A timestamp: year, month, day and a time-of-day component. -/
structure Timestamp where
  year : Nat
  month : Nat
  day : Nat
  hour : Nat
  minute : Nat
  second : Nat
deriving DecidableEq, Repr

/-- Accent folding over a fixed character-substitution table for the
Portuguese accented letters, mapping both cases to the lowercase base
letter (spec §4.3 and §9: "accent folding as a pure normalization function
over a fixed character-substitution table"). -/
def foldAccent (c : Char) : Char :=
  if c = 'á' ∨ c = 'à' ∨ c = 'â' ∨ c = 'ã' ∨ c = 'ä' ∨
     c = 'Á' ∨ c = 'À' ∨ c = 'Â' ∨ c = 'Ã' ∨ c = 'Ä' then 'a'
  else if c = 'é' ∨ c = 'è' ∨ c = 'ê' ∨ c = 'ë' ∨
          c = 'É' ∨ c = 'È' ∨ c = 'Ê' ∨ c = 'Ë' then 'e'
  else if c = 'í' ∨ c = 'ì' ∨ c = 'î' ∨ c = 'ï' ∨
          c = 'Í' ∨ c = 'Ì' ∨ c = 'Î' ∨ c = 'Ï' then 'i'
  else if c = 'ó' ∨ c = 'ò' ∨ c = 'ô' ∨ c = 'õ' ∨ c = 'ö' ∨
          c = 'Ó' ∨ c = 'Ò' ∨ c = 'Ô' ∨ c = 'Õ' ∨ c = 'Ö' then 'o'
  else if c = 'ú' ∨ c = 'ù' ∨ c = 'û' ∨ c = 'ü' ∨
          c = 'Ú' ∨ c = 'Ù' ∨ c = 'Û' ∨ c = 'Ü' then 'u'
  else if c = 'ç' ∨ c = 'Ç' then 'c'
  else c

/-- Case-insensitive, accent-folded view of the text to be matched against
the month-name table. -/
def normalizeDateText (l : List Char) : List Char :=
  l.map (fun c => (foldAccent c).toLower)

/-- The fixed month-name table of spec §4.3, including both "março" and the
unaccented "marco" as month 3 (matching happens on normalized text). -/
def monthTable : List (List Char × Nat) :=
  [("janeiro".data, 1), ("fevereiro".data, 2), ("marco".data, 3), ("março".data, 3),
   ("abril".data, 4), ("maio".data, 5), ("junho".data, 6), ("julho".data, 7),
   ("agosto".data, 8), ("setembro".data, 9), ("outubro".data, 10),
   ("novembro".data, 11), ("dezembro".data, 12)]

/-- Decimal value of a digit list. -/
def digitsToNat (ds : List Char) : Nat := ds.foldl (fun n c => n * 10 + (c.toNat - 48)) 0

/-- Consume the literal `" de "` separator of the date pattern. -/
def expectDe : List Char → Option (List Char)
  | ' ' :: 'd' :: 'e' :: ' ' :: rest => some rest
  | _ => none

/-- Match one month name of the table as a prefix, returning its number and
the remaining text. -/
def matchMonth (l : List Char) : Option (Nat × List Char) :=
  monthTable.findSome? (fun nm =>
    if List.isPrefixOf nm.1 l then some (nm.2, l.drop nm.1.length) else none)

/-- Try to match `<1-2 digit day> de <month name> de <4-digit year>` at the
start of the (already normalized) text. -/
def matchDateAt (l : List Char) : Option (Nat × Nat × Nat) :=
  let ds := l.takeWhile Char.isDigit
  if ds.length = 0 ∨ 2 < ds.length then none
  else
    match expectDe (l.dropWhile Char.isDigit) with
    | none => none
    | some r2 =>
      match matchMonth r2 with
      | none => none
      | some mr =>
        match expectDe mr.2 with
        | none => none
        | some r4 =>
          let ys := r4.takeWhile Char.isDigit
          if ys.length < 4 then none
          else some (digitsToNat ds, mr.1, digitsToNat (ys.take 4))

/-- Scan the text left to right for the first position where the date
pattern matches. -/
def findDate : List Char → Option (Nat × Nat × Nat)
  | [] => none
  | c :: cs =>
    match matchDateAt (c :: cs) with
    | some r => some r
    | none => findDate cs

/-- Gregorian month lengths, February honouring leap years. -/
def diasNoMes (m y : Nat) : Nat :=
  if m = 2 then (if (y % 4 = 0 ∧ y % 100 ≠ 0) ∨ y % 400 = 0 then 29 else 28)
  else if m = 4 ∨ m = 6 ∨ m = 9 ∨ m = 11 then 30 else 31

/-- A possible calendar date (spec §4.3: day 31 in a 30-day month is
impossible and triggers the fallback). -/
def validDate (d m y : Nat) : Bool :=
  decide (1 ≤ d) && decide (d ≤ diasNoMes m y) && decide (1 ≤ m) && decide (m ≤ 12)

/-- Modelled from the spec: the Portuguese long-form date parser of spec
§4.3 is not present in src/update_feeds.py (the only related code is the
`item.get("pubDate", agora)` fallback on line 118); this definition follows
the spec's words: recognize `<1-2 digit day> de <month name> de <4-digit
year>` case-insensitively after accent folding, return the literal
day/month/year with a zero time-of-day component, and fall back to `now`
(the current UTC time, passed explicitly) on a non-match or an impossible
calendar date.  Totality — "never fails" — holds by construction. -/
def parse_data_pt (text : List Char) (now : Timestamp) : Timestamp :=
  match findDate (normalizeDateText text) with
  | none => now
  | some dmy =>
    if validDate dmy.1 dmy.2.1 dmy.2.2 then ⟨dmy.2.2, dmy.2.1, dmy.1, 0, 0, 0⟩ else now

/-- A necessary condition for XML well-formedness (XML 1.0 §2.4/§4.1: in
character data and attribute values every `&` must begin an entity or
character reference, whose first following character is a name-start
character or `#`): every ampersand of the document is immediately followed
by a letter, digit, `#`, `_` or `:`.  This is the spec-side predicate for
the claim that the renderer's output is parseable XML — any document
violating it is not well-formed. -/
def ampRefStart (c : Char) : Bool :=
  c.isAlpha || c.isDigit || c == '#' || c == '_' || c == ':'

/-- Check every ampersand of the character list. -/
def xmlAmpOkAux : List Char → Bool
  | [] => true
  | '&' :: rest =>
    (match rest with
     | [] => false
     | d :: _ => ampRefStart d) && xmlAmpOkAux rest
  | _ :: rest => xmlAmpOkAux rest

/-- The ampersand well-formedness condition on strings. -/
def xmlAmpersandsSane (s : String) : Bool := xmlAmpOkAux s.data

/-! ### Helper lemmas about the text-cleaning pipeline -/

theorem dropWhile_head_pred {p : Char → Bool} {l : List Char} {b : Char} {t : List Char}
    (h : l.dropWhile p = b :: t) : p b = false := by
  induction l with
  | nil => simp [List.dropWhile] at h
  | cons c cs ih =>
    rw [List.dropWhile_cons] at h
    by_cases hc : p c = true
    · rw [if_pos hc] at h; exact ih h
    · rw [if_neg hc] at h
      cases h
      exact Bool.eq_false_iff.mpr hc

theorem noAdjWs_two (a b : Char) (l : List Char) :
    noAdjWs (a :: b :: l) = ((!(isPyWs a && isPyWs b)) && noAdjWs (b :: l)) := rfl

theorem noAdj_tail (a : Char) (l : List Char) (h : noAdjWs (a :: l) = true) :
    noAdjWs l = true := by
  cases l with
  | nil => rfl
  | cons b t => rw [noAdjWs_two] at h; exact Bool.and_elim_right h

theorem noAdj_head_pair (a b : Char) (l : List Char) (h : noAdjWs (a :: l) = true)
    (hb : l.head? = some b) : (isPyWs a && isPyWs b) = false := by
  cases l with
  | nil => cases hb
  | cons c t =>
    simp only [List.head?_cons, Option.some.injEq] at hb
    subst hb
    rw [noAdjWs_two] at h
    have h1 := Bool.and_elim_left h
    cases hx : (isPyWs a && isPyWs c) with
    | false => rfl
    | true => rw [hx] at h1; cases h1

theorem noAdj_cons_of (a : Char) (l : List Char)
    (h : ∀ b : Char, l.head? = some b → (isPyWs a && isPyWs b) = false)
    (h2 : noAdjWs l = true) : noAdjWs (a :: l) = true := by
  cases l with
  | nil => rfl
  | cons b t =>
    rw [noAdjWs_two]
    rw [h b rfl, h2]
    rfl

theorem mem_collapseWs (l : List Char) :
    ∀ (b : Bool) (c : Char), c ∈ collapseWs b l → c = ' ' ∨ (isPyWs c = false ∧ c ∈ l) := by
  induction l with
  | nil => intro b c h; cases b <;> simp [collapseWs] at h
  | cons d ds ih =>
    intro b c h
    by_cases hd : isPyWs d = true
    · cases b with
      | true =>
        rw [collapseWs, if_pos hd] at h
        rcases ih true c h with h1 | h2
        · exact Or.inl h1
        · exact Or.inr ⟨h2.1, List.mem_cons_of_mem d h2.2⟩
      | false =>
        rw [collapseWs, if_pos hd] at h
        simp only [List.mem_cons] at h
        rcases h with h1 | h1
        · exact Or.inl h1
        · rcases ih true c h1 with h2 | h2
          · exact Or.inl h2
          · exact Or.inr ⟨h2.1, List.mem_cons_of_mem d h2.2⟩
    · cases b with
      | true =>
        rw [collapseWs, if_neg hd] at h
        simp only [List.mem_cons] at h
        rcases h with h1 | h1
        · subst h1; exact Or.inr ⟨Bool.eq_false_iff.mpr hd, List.mem_cons_self c ds⟩
        · rcases ih false c h1 with h2 | h2
          · exact Or.inl h2
          · exact Or.inr ⟨h2.1, List.mem_cons_of_mem d h2.2⟩
      | false =>
        rw [collapseWs, if_neg hd] at h
        simp only [List.mem_cons] at h
        rcases h with h1 | h1
        · subst h1; exact Or.inr ⟨Bool.eq_false_iff.mpr hd, List.mem_cons_self c ds⟩
        · rcases ih false c h1 with h2 | h2
          · exact Or.inl h2
          · exact Or.inr ⟨h2.1, List.mem_cons_of_mem d h2.2⟩

theorem head_collapseWs_true (l : List Char) :
    ∀ c : Char, (collapseWs true l).head? = some c → isPyWs c = false := by
  induction l with
  | nil => intro c h; simp [collapseWs] at h
  | cons d ds ih =>
    intro c h
    by_cases hd : isPyWs d = true
    · rw [collapseWs, if_pos hd] at h; exact ih c h
    · rw [collapseWs, if_neg hd] at h
      simp only [List.head?_cons, Option.some.injEq] at h
      subst h
      exact Bool.eq_false_iff.mpr hd

theorem noAdj_collapseWs (l : List Char) : ∀ b : Bool, noAdjWs (collapseWs b l) = true := by
  induction l with
  | nil => intro b; cases b <;> rfl
  | cons d ds ih =>
    intro b
    by_cases hd : isPyWs d = true
    · cases b with
      | true => rw [collapseWs, if_pos hd]; exact ih true
      | false =>
        rw [collapseWs, if_pos hd]
        apply noAdj_cons_of
        · intro x hx
          have := head_collapseWs_true ds x hx
          simp [this]
        · exact ih true
    · have hdd : isPyWs d = false := Bool.eq_false_iff.mpr hd
      cases b with
      | true =>
        rw [collapseWs, if_neg hd]
        apply noAdj_cons_of
        · intro x _; simp [hdd]
        · exact ih false
      | false =>
        rw [collapseWs, if_neg hd]
        apply noAdj_cons_of
        · intro x _; simp [hdd]
        · exact ih false

theorem collapseWs_fix (l : List Char) :
    ∀ b : Bool, noAdjWs l = true → (∀ c ∈ l, isPyWs c = true → c = ' ') →
      (b = true → headNotWs l = true) → collapseWs b l = l := by
  induction l with
  | nil => intro b _ _ _; cases b <;> rfl
  | cons d ds ih =>
    intro b hadj hsp hb
    have hadj2 : noAdjWs ds = true := noAdj_tail d ds hadj
    by_cases hd : isPyWs d = true
    · have hb2 : b = false := by
        cases b with
        | false => rfl
        | true =>
          have := hb rfl
          simp [headNotWs, hd] at this
      subst hb2
      rw [collapseWs, if_pos hd]
      have hds : d = ' ' := hsp d (List.mem_cons_self d ds) hd
      have hrec : collapseWs true ds = ds := by
        apply ih true hadj2
        · intro c hc hwc; exact hsp c (List.mem_cons_of_mem d hc) hwc
        · intro _
          cases hh : ds.head? with
          | none => simp [headNotWs, hh]
          | some c =>
            have hpair := noAdj_head_pair d c ds hadj hh
            rw [hd] at hpair
            simp only [Bool.true_and] at hpair
            simp [headNotWs, hh, hpair]
      rw [hrec, hds]
    · have hrec : collapseWs false ds = ds := by
        apply ih false hadj2
        · intro c hc hwc; exact hsp c (List.mem_cons_of_mem d hc) hwc
        · intro hcon; cases hcon
      cases b with
      | true => rw [collapseWs, if_neg hd, hrec]
      | false => rw [collapseWs, if_neg hd, hrec]

theorem pyStripRight_prefix_self (l : List Char) : List.IsPrefix (pyStripRight l) l := by
  induction l with
  | nil => exact List.prefix_refl _
  | cons c cs ih =>
    rw [pyStripRight]
    cases h : pyStripRight cs with
    | nil =>
      by_cases hc : isPyWs c = true
      · simp only [hc, if_true]
        exact List.nil_prefix
      · simp only [hc, if_false]
        exact ⟨cs, rfl⟩
    | cons x xs =>
      rw [h] at ih
      obtain ⟨r, hr⟩ := ih
      exact ⟨r, by rw [List.cons_append, hr]⟩

theorem pyStripRight_last (l : List Char) :
    ∀ c : Char, (pyStripRight l).getLast? = some c → isPyWs c = false := by
  induction l with
  | nil => intro c h; simp [pyStripRight] at h
  | cons d ds ih =>
    intro c h
    rw [pyStripRight] at h
    cases hds : pyStripRight ds with
    | nil =>
      rw [hds] at h
      by_cases hd : isPyWs d = true
      · rw [if_pos hd] at h; simp at h
      · rw [if_neg hd] at h
        simp only [List.getLast?_singleton, Option.some.injEq] at h
        subst h
        exact Bool.eq_false_iff.mpr hd
    | cons x xs =>
      rw [hds] at h
      rw [List.getLast?_cons_cons] at h
      rw [← hds] at h
      exact ih c h

theorem pyStripRight_fix (l : List Char) (h : lastNotWs l = true) : pyStripRight l = l := by
  induction l with
  | nil => rfl
  | cons c cs ih =>
    cases cs with
    | nil =>
      simp only [lastNotWs, List.getLast?_singleton] at h
      have hc : isPyWs c = false := by
        cases hic : isPyWs c
        · rfl
        · rw [hic] at h; cases h
      show (if isPyWs c = true then [] else [c]) = [c]
      simp [hc]
    | cons d ds =>
      have h2 : lastNotWs (d :: ds) = true := by
        simpa only [lastNotWs, List.getLast?_cons_cons] using h
      have ih2 := ih h2
      rw [pyStripRight, ih2]

theorem noAdj_prefix_closed (l1 l2 : List Char) (h : List.IsPrefix l1 l2) (h2 : noAdjWs l2 = true) :
    noAdjWs l1 = true := by
  induction l1 generalizing l2 with
  | nil => rfl
  | cons a t1 ih =>
    obtain ⟨r, hr⟩ := h
    subst hr
    rw [List.cons_append] at h2
    apply noAdj_cons_of
    · intro b hb
      apply noAdj_head_pair a b (t1 ++ r) h2
      cases t1 with
      | nil => cases hb
      | cons x xs => simp only [List.head?_cons, Option.some.injEq] at hb; subst hb; rfl
    · exact ih (t1 ++ r) ⟨r, rfl⟩ (noAdj_tail a (t1 ++ r) h2)

theorem noAdj_dropWhile (p : Char → Bool) (l : List Char) (h : noAdjWs l = true) :
    noAdjWs (l.dropWhile p) = true := by
  induction l with
  | nil => rfl
  | cons c cs ih =>
    rw [List.dropWhile_cons]
    by_cases hc : p c = true
    · rw [if_pos hc]
      exact ih (noAdj_tail c cs h)
    · rw [if_neg hc]; exact h

theorem head_dropWhile_not (p : Char → Bool) (l : List Char) (c : Char)
    (h : (l.dropWhile p).head? = some c) : p c = false := by
  cases hd : l.dropWhile p with
  | nil => rw [hd] at h; cases h
  | cons b t =>
    rw [hd] at h
    simp only [List.head?_cons, Option.some.injEq] at h
    subst h
    exact dropWhile_head_pred hd

theorem prefix_head_eq (l1 l2 : List Char) (h : List.IsPrefix l1 l2) (hne : l1 ≠ []) :
    l1.head? = l2.head? := by
  obtain ⟨r, hr⟩ := h
  subst hr
  cases l1 with
  | nil => exact absurd rfl hne
  | cons x xs => simp [List.cons_append]

/-- All characters of `limparCore l` are a space or a non-whitespace
character of the input. -/
theorem mem_limparCore (l : List Char) (c : Char) (h : c ∈ limparCore l) :
    c = ' ' ∨ isPyWs c = false := by
  unfold limparCore pyStrip pyStripLeft at h
  have h1 : c ∈ (collapseWs false (replaceCrLf l)).dropWhile isPyWs :=
    (pyStripRight_prefix_self _).subset h
  have h2 : c ∈ collapseWs false (replaceCrLf l) :=
    (List.dropWhile_sublist isPyWs).subset h1
  rcases mem_collapseWs (replaceCrLf l) false c h2 with h3 | h3
  · exact Or.inl h3
  · exact Or.inr h3.1

theorem noAdj_limparCore (l : List Char) : noAdjWs (limparCore l) = true := by
  unfold limparCore pyStrip pyStripLeft
  apply noAdj_prefix_closed _ _ (pyStripRight_prefix_self _)
  exact noAdj_dropWhile _ _ (noAdj_collapseWs (replaceCrLf l) false)

theorem headNotWs_limparCore (l : List Char) : headNotWs (limparCore l) = true := by
  unfold limparCore pyStrip pyStripLeft
  cases hres : pyStripRight ((collapseWs false (replaceCrLf l)).dropWhile isPyWs) with
  | nil => rfl
  | cons x xs =>
    have hpre := pyStripRight_prefix_self ((collapseWs false (replaceCrLf l)).dropWhile isPyWs)
    rw [hres] at hpre
    have hhead := prefix_head_eq _ _ hpre (by simp)
    simp only [List.head?_cons] at hhead
    have := head_dropWhile_not isPyWs _ x hhead.symm
    simp [headNotWs, this]

theorem lastNotWs_limparCore (l : List Char) : lastNotWs (limparCore l) = true := by
  unfold limparCore pyStrip pyStripLeft
  cases hres : (pyStripRight ((collapseWs false (replaceCrLf l)).dropWhile isPyWs)).getLast? with
  | none => simp [lastNotWs, hres]
  | some c =>
    have := pyStripRight_last _ c hres
    simp [lastNotWs, hres, this]

theorem limparCore_idem (l : List Char) : limparCore (limparCore l) = limparCore l := by
  have hmem := mem_limparCore l
  have hadj := noAdj_limparCore l
  have hhead := headNotWs_limparCore l
  have hlast := lastNotWs_limparCore l
  set m := limparCore l with hm
  have hrep : replaceCrLf m = m := by
    unfold replaceCrLf
    have : ∀ c ∈ m, (if c = '\r' then ' ' else if c = '\n' then ' ' else c) = c := by
      intro c hc
      rcases hmem c hc with h | h
      · subst h; rfl
      · have hr : ¬ c = '\r' := by rintro rfl; simp [isPyWs] at h
        have hn : ¬ c = '\n' := by rintro rfl; simp [isPyWs] at h
        simp [hr, hn]
    conv_rhs => rw [show m = m.map id from (List.map_id m).symm]
    exact List.map_congr_left this
  have hcol : collapseWs false m = m := by
    apply collapseWs_fix m false hadj
    · intro c hc hwc
      rcases hmem c hc with h | h
      · exact h
      · rw [h] at hwc; cases hwc
    · intro hcon; cases hcon
  have hdrop : m.dropWhile isPyWs = m := by
    cases hm2 : m with
    | nil => rfl
    | cons x xs =>
      rw [hm2] at hhead
      simp only [headNotWs, List.head?_cons] at hhead
      rw [List.dropWhile_cons]
      simp only [Bool.not_eq_true'] at hhead
      simp [hhead]
  have hstrip : pyStripRight m = m := pyStripRight_fix m hlast
  unfold limparCore pyStrip pyStripLeft
  rw [hrep, hcol, hdrop, hstrip]

theorem noCrLf_limparCore (l : List Char) : noCrLf (limparCore l) = true := by
  unfold noCrLf
  rw [List.all_eq_true]
  intro c hc
  rcases mem_limparCore l c hc with h | h
  · subst h; rfl
  · have hr : ¬ c = '\r' := by rintro rfl; simp [isPyWs] at h
    have hn : ¬ c = '\n' := by rintro rfl; simp [isPyWs] at h
    simp [hr, hn]

/-! ### Helper lemmas about the collector's dedup loop -/

theorem dedupAux_sublist : ∀ (l : List Item) (vistos : List String),
    List.Sublist (dedupFirstAux vistos l) l := by
  intro l
  induction l with
  | nil => intro vistos; exact List.Sublist.refl []
  | cons it rest ih =>
    intro vistos
    rw [dedupFirstAux]
    by_cases h : it.link ∈ vistos
    · rw [if_pos h]
      exact List.Sublist.cons it (ih vistos)
    · rw [if_neg h]
      exact List.Sublist.cons₂ it (ih (it.link :: vistos))

theorem mem_dedupAux_not_visto : ∀ (l : List Item) (vistos : List String) (it : Item),
    it ∈ dedupFirstAux vistos l → ¬ it.link ∈ vistos := by
  intro l
  induction l with
  | nil => intro vistos it h; simp [dedupFirstAux] at h
  | cons a rest ih =>
    intro vistos it h
    rw [dedupFirstAux] at h
    by_cases ha : a.link ∈ vistos
    · rw [if_pos ha] at h
      exact ih vistos it h
    · rw [if_neg ha] at h
      simp only [List.mem_cons] at h
      rcases h with h1 | h1
      · subst h1; exact ha
      · have h2 := ih (a.link :: vistos) it h1
        intro hc
        exact h2 (List.mem_cons_of_mem _ hc)

theorem dedupAux_links_nodup : ∀ (l : List Item) (vistos : List String),
    ((dedupFirstAux vistos l).map Item.link).Nodup := by
  intro l
  induction l with
  | nil => intro vistos; exact List.nodup_nil
  | cons a rest ih =>
    intro vistos
    rw [dedupFirstAux]
    by_cases ha : a.link ∈ vistos
    · rw [if_pos ha]; exact ih vistos
    · rw [if_neg ha]
      rw [List.map_cons]
      refine List.nodup_cons.mpr ⟨?_, ih (a.link :: vistos)⟩
      intro hmem
      obtain ⟨it, hit, hlink⟩ := List.mem_map.mp hmem
      have := mem_dedupAux_not_visto rest (a.link :: vistos) it hit
      exact this (by rw [hlink]; exact List.mem_cons_self _ _)

theorem dedupAux_filter_visto : ∀ (l : List Item) (vistos : List String) (u : String),
    u ∈ vistos → (dedupFirstAux vistos l).filter (fun it => it.link == u) = [] := by
  intro l vistos u hu
  rw [List.filter_eq_nil_iff]
  intro it hit
  have := mem_dedupAux_not_visto l vistos it hit
  intro hc
  rw [beq_iff_eq] at hc
  rw [hc] at this
  exact this hu

theorem dedupAux_filter : ∀ (l : List Item) (vistos : List String) (u : String),
    ¬ u ∈ vistos →
    (dedupFirstAux vistos l).filter (fun it => it.link == u) =
      (l.filter (fun it => it.link == u)).take 1 := by
  intro l
  induction l with
  | nil => intro vistos u _; rfl
  | cons a rest ih =>
    intro vistos u hu
    rw [dedupFirstAux]
    by_cases ha : a.link ∈ vistos
    · rw [if_pos ha]
      have hne : ¬ (a.link == u) = true := by
        intro hc
        rw [beq_iff_eq] at hc
        rw [hc] at ha
        exact hu ha
      rw [List.filter_cons]
      simp only [hne, if_false]
      exact ih vistos u hu
    · rw [if_neg ha]
      by_cases hau : (a.link == u) = true
      · have hau2 : a.link = u := beq_iff_eq.mp hau
        rw [List.filter_cons, List.filter_cons]
        simp only [hau, if_true]
        have hvis : u ∈ a.link :: vistos := by rw [← hau2]; exact List.mem_cons_self _ _
        rw [dedupAux_filter_visto rest (a.link :: vistos) u hvis]
        simp
      · rw [List.filter_cons, List.filter_cons]
        simp only [hau, if_false]
        apply ih
        intro hc
        simp only [List.mem_cons] at hc
        rcases hc with hc | hc
        · rw [hc] at hau; simp at hau
        · exact hu hc

theorem coletar_itens_map_link : ∀ (page : List Anchor)
    (h1 h2 : String → Except String String),
    (coletar_colider_itens page h1).map Item.link =
      (coletar_colider_itens page h2).map Item.link := by
  intro page h1 h2
  induction page with
  | nil => rfl
  | cons a rest ih =>
    rw [coletar_colider_itens, coletar_colider_itens] at ih ⊢
    rw [List.filterMap_cons, List.filterMap_cons]
    by_cases hk : keepColider a = true
    · rw [if_pos hk, if_pos hk]
      rw [List.map_cons, List.map_cons]
      rw [ih]
      rfl
    · rw [if_neg hk, if_neg hk]
      exact ih

theorem dedupAux_map_link_congr : ∀ (l1 l2 : List Item) (vistos : List String),
    l1.map Item.link = l2.map Item.link →
    (dedupFirstAux vistos l1).map Item.link = (dedupFirstAux vistos l2).map Item.link := by
  intro l1
  induction l1 with
  | nil =>
    intro l2 vistos h
    have : l2 = [] := by
      cases l2 with
      | nil => rfl
      | cons x xs => simp at h
    subst this
    rfl
  | cons a t1 ih =>
    intro l2 vistos h
    cases l2 with
    | nil => simp at h
    | cons b t2 =>
      simp only [List.map_cons, List.cons.injEq] at h
      obtain ⟨hab, htl⟩ := h
      rw [dedupFirstAux, dedupFirstAux, hab]
      by_cases hb : b.link ∈ vistos
      · rw [if_pos hb, if_pos hb]
        exact ih t2 vistos htl
      · rw [if_neg hb, if_neg hb]
        rw [List.map_cons, List.map_cons, hab]
        rw [ih t2 (b.link :: vistos) htl]

/-! ### Helper lemmas about the truncation step -/

theorem rsplit_no_dot (l : List Char) (h : ¬ '.' ∈ l) : rsplitLastDot l = l := by
  have hall : l.reverse.dropWhile (fun c => !(c == '.')) = [] := by
    rw [List.dropWhile_eq_nil_iff]
    intro x hx
    have hxl : x ∈ l := List.mem_reverse.mp hx
    have hne : ¬ x = '.' := fun hc => h (hc ▸ hxl)
    simp [hne]
  unfold rsplitLastDot
  rw [hall]

theorem rsplit_dot (l : List Char) (h : '.' ∈ l) :
    ∃ pre after, l = pre ++ '.' :: after ∧ ¬ '.' ∈ after ∧ rsplitLastDot l = pre := by
  have hrev : '.' ∈ l.reverse := List.mem_reverse.mpr h
  cases hd : l.reverse.dropWhile (fun c => !(c == '.')) with
  | nil =>
    exfalso
    rw [List.dropWhile_eq_nil_iff] at hd
    have := hd '.' hrev
    simp at this
  | cons d rest =>
    have hdnot : (fun c => !(c == '.')) d = false := dropWhile_head_pred hd
    have hdd : d = '.' := by simpa using hdnot
    subst hdd
    have hsplit : l.reverse = l.reverse.takeWhile (fun c => !(c == '.')) ++ '.' :: rest := by
      conv_lhs => rw [← List.takeWhile_append_dropWhile (fun c => !(c == '.')) l.reverse]
      rw [hd]
    have hmemtw : ∀ x ∈ l.reverse.takeWhile (fun c => !(c == '.')), ¬ x = '.' := by
      intro x hx
      have h4 := List.mem_takeWhile_imp hx
      simpa using h4
    have h2 : l = (l.reverse.takeWhile (fun c => !(c == '.')) ++ '.' :: rest).reverse := by
      have h3 := congrArg List.reverse hsplit
      rwa [List.reverse_reverse] at h3
    generalize htw : l.reverse.takeWhile (fun c => !(c == '.')) = tw at h2 hmemtw
    refine ⟨rest.reverse, tw.reverse, ?_, ?_, ?_⟩
    · rw [h2]
      simp [List.reverse_append, List.reverse_cons, List.append_assoc]
    · intro hmem
      exact hmemtw '.' (List.mem_reverse.mp hmem) rfl
    · unfold rsplitLastDot
      rw [hd]

/-! ### Claim theorems -/

/-- C10: for every input string, `limpar_texto` is idempotent, and its
output contains no carriage returns, no newlines, no two adjacent
whitespace characters, and no leading or trailing whitespace. -/
theorem limpar_texto_clean : ∀ s : String,
    limpar_texto (limpar_texto s) = limpar_texto s ∧
    noCrLf (limpar_texto s).data = true ∧
    noAdjWs (limpar_texto s).data = true ∧
    headNotWs (limpar_texto s).data = true ∧
    lastNotWs (limpar_texto s).data = true := by
  intro s
  refine ⟨?_, noCrLf_limparCore s.data, noAdj_limparCore s.data,
    headNotWs_limparCore s.data, lastNotWs_limparCore s.data⟩
  show String.mk (limparCore (String.mk (limparCore s.data)).data) = String.mk (limparCore s.data)
  rw [show (String.mk (limparCore s.data)).data = limparCore s.data from rfl]
  rw [limparCore_idem]

/-- C7: the Portuguese long-form date parser is total (it is a Lean `def`,
hence defined on every input) and never raises: `parse` of
"05 de Dezembro de 2025 ..." yields year 2025, month 12, day 5 for every
`now`; the impossible date "31 de Fevereiro de 2025" falls back to `now`;
text containing no date pattern falls back to `now`. -/
theorem parse_data_pt_spec :
    (∀ now : Timestamp,
      parse_data_pt "05 de Dezembro de 2025 Prefeitura anuncia obra".data now =
        ⟨2025, 12, 5, 0, 0, 0⟩) ∧
    (∀ now : Timestamp,
      parse_data_pt "31 de Fevereiro de 2025 evento municipal".data now = now) ∧
    (∀ now : Timestamp, parse_data_pt "sem data aqui".data now = now) :=
  ⟨fun _ => rfl, fun _ => rfl, fun _ => rfl⟩

/-- C1: refuted on the code — `gerar_xml` inserts item fields verbatim, so
an item title containing a bare ampersand produces a document in which `&`
is followed by a space, violating the ampersand condition that every
well-formed XML document satisfies; such output cannot be parsed, so the
round-trip property fails.  The second conjunct exhibits the offending
text in the output. -/
theorem gerar_xml_unescaped_not_wellformed :
    xmlAmpersandsSane (gerar_xml "Colíder (MT)" "https://www.mtonline.com.br"
      [⟨"Casa & Obra", "https://www.colider.mt.gov.br/Imprensa/Noticias/1", "desc", none⟩]
      "Mon, 01 Jan 2024 00:00:00 GMT") = false ∧
    substrIn "<title>Casa & Obra</title>" (gerar_xml "Colíder (MT)" "https://www.mtonline.com.br"
      [⟨"Casa & Obra", "https://www.colider.mt.gov.br/Imprensa/Noticias/1", "desc", none⟩]
      "Mon, 01 Jan 2024 00:00:00 GMT") = true := by
  refine ⟨by decide, by decide⟩

/-- C2: refuted on the code — `gerar_xml` performs no entity escaping at
all: a title and a link containing `&` and `<` appear verbatim in the
output, and the escaped forms `&amp;` and `&lt;` appear nowhere. -/
theorem gerar_xml_inserts_fields_unescaped :
    substrIn "<title>Lei & Ordem</title>" (gerar_xml "Cidade" "https://b?x=1&y=2"
      [⟨"Lei & Ordem", "https://l?a=1&b=2", "d", none⟩] "Tue, 02 Jan 2024 00:00:00 GMT") = true ∧
    substrIn "<link>https://l?a=1&b=2</link>" (gerar_xml "Cidade" "https://b?x=1&y=2"
      [⟨"Lei & Ordem", "https://l?a=1&b=2", "d", none⟩] "Tue, 02 Jan 2024 00:00:00 GMT") = true ∧
    substrIn "&amp;" (gerar_xml "Cidade" "https://b?x=1&y=2"
      [⟨"Lei & Ordem", "https://l?a=1&b=2", "d", none⟩] "Tue, 02 Jan 2024 00:00:00 GMT") = false ∧
    substrIn "&lt;" (gerar_xml "Cidade" "https://b?x=1&y=2"
      [⟨"Lei & Ordem", "https://l?a=1&b=2", "d", none⟩] "Tue, 02 Jan 2024 00:00:00 GMT") = false := by
  refine ⟨by decide, by decide, by decide, by decide⟩

/-- C9: `main` factors into four independent per-municipality blocks — each
municipality's final file content and log line are a function of only that
municipality's own oracle values and prior file content, so no error in one
municipality affects another and every municipality is attempted (the log
always has exactly four entries, one per municipality, in order). -/
theorem main_isolates_municipalities : ∀ (o : Oracle) (agora : String) (fs : Files),
    main o agora fs =
      (⟨(runCity "Colíder (MT)" "https://www.mtonline.com.br" agora "Colíder"
           "Atualizado colider.xml" o.colider o.wColider fs.colider).1,
        (runCity "Guarantã do Norte (MT)" "https://www.mtonline.com.br" agora "Guarantã"
           "Atualizado guaranta.xml" o.guaranta o.wGuaranta fs.guaranta).1,
        (runCity "Peixoto de Azevedo (MT)" "https://www.mtonline.com.br" agora "Peixoto"
           "Atualizado peixoto.xml" o.peixoto o.wPeixoto fs.peixoto).1,
        (runCity "Alta Floresta (MT)" "https://www.mtonline.com.br" agora "Alta Floresta"
           "Atualizado altafloresta.xml" o.alta o.wAlta fs.altafloresta).1⟩,
       [(runCity "Colíder (MT)" "https://www.mtonline.com.br" agora "Colíder"
           "Atualizado colider.xml" o.colider o.wColider fs.colider).2,
        (runCity "Guarantã do Norte (MT)" "https://www.mtonline.com.br" agora "Guarantã"
           "Atualizado guaranta.xml" o.guaranta o.wGuaranta fs.guaranta).2,
        (runCity "Peixoto de Azevedo (MT)" "https://www.mtonline.com.br" agora "Peixoto"
           "Atualizado peixoto.xml" o.peixoto o.wPeixoto fs.peixoto).2,
        (runCity "Alta Floresta (MT)" "https://www.mtonline.com.br" agora "Alta Floresta"
           "Atualizado altafloresta.xml" o.alta o.wAlta fs.altafloresta).2]) ∧
    ((main o agora fs).2).length = 4 := by
  intro o agora fs
  constructor
  · unfold main runCity
    cases o.colider <;> cases o.guaranta <;> cases o.peixoto <;> cases o.alta <;>
      cases o.wColider <;> cases o.wGuaranta <;> cases o.wPeixoto <;> cases o.wAlta <;> rfl
  · unfold main
    cases o.colider <;> cases o.guaranta <;> cases o.peixoto <;> cases o.alta <;> rfl

/-- C3: refuted on the code — `main` has no emptiness check: when the
collector succeeds with zero items the file is still overwritten with a
rendered feed containing no items, so the post-run content differs from
the pre-run content. -/
theorem main_overwrites_on_empty_items :
    ((main ⟨Except.ok [], Except.ok [], Except.ok [], Except.ok [], none, none, none, none⟩
        "Mon, 01 Jan 2024 00:00:00 GMT" ⟨"OLD1", "OLD2", "OLD3", "OLD4"⟩).1).colider =
      gerar_xml "Colíder (MT)" "https://www.mtonline.com.br" []
        "Mon, 01 Jan 2024 00:00:00 GMT" ∧
    ((main ⟨Except.ok [], Except.ok [], Except.ok [], Except.ok [], none, none, none, none⟩
        "Mon, 01 Jan 2024 00:00:00 GMT" ⟨"OLD1", "OLD2", "OLD3", "OLD4"⟩).1).colider ≠ "OLD1" := by
  refine ⟨rfl, by decide⟩

/-- C3 (amended): whenever the collector for Colíder succeeds and the write
raises no exception, the output file is unconditionally overwritten with
the rendered feed for the returned items — including a feed with zero
items; the previous content is fully replaced on every successful run. -/
theorem main_always_writes_on_success :
    ∀ (o : Oracle) (agora : String) (fs : Files) (itens : List Item),
      o.colider = Except.ok itens → o.wColider = none →
      ((main o agora fs).1).colider =
        gerar_xml "Colíder (MT)" "https://www.mtonline.com.br" itens agora := by
  intro o agora fs itens h1 h2
  unfold main
  rw [h1, h2]

/-- Witness for `main_always_writes_on_success` at a concrete oracle with an
empty item list. -/
theorem main_always_writes_on_success_witness :
    ((⟨Except.ok [], Except.ok [], Except.ok [], Except.ok [],
       none, none, none, none⟩ : Oracle).colider = Except.ok [] ∧
     (⟨Except.ok [], Except.ok [], Except.ok [], Except.ok [],
       none, none, none, none⟩ : Oracle).wColider = none) ∧
    ((main ⟨Except.ok [], Except.ok [], Except.ok [], Except.ok [], none, none, none, none⟩
        "Tue, 02 Jan 2024 00:00:00 GMT" ⟨"A", "B", "C", "D"⟩).1).colider =
      gerar_xml "Colíder (MT)" "https://www.mtonline.com.br" []
        "Tue, 02 Jan 2024 00:00:00 GMT" :=
  ⟨⟨rfl, rfl⟩,
   main_always_writes_on_success _ "Tue, 02 Jan 2024 00:00:00 GMT" ⟨"A", "B", "C", "D"⟩ [] rfl rfl⟩

/-- C4: refuted on the code — a candidate link whose per-article fetch
fails is NOT excluded: `extrair_conteudo_generico` catches the exception
and returns a placeholder paragraph, and the collector keeps the item with
that placeholder as its description. -/
theorem coletar_colider_keeps_failed_fetch_item :
    coletar_colider [⟨"/Imprensa/Noticias/7", "Obra"⟩] (fun _ => Except.error "timeout") =
      [⟨"Obra", "https://www.colider.mt.gov.br/Imprensa/Noticias/7",
        "<p>Não foi possível carregar o texto completo desta notícia. (timeout)</p>", none⟩] := by
  decide

/-- C4 (amended): on a per-article fetch failure the item is retained, not
excluded: the extractor returns a placeholder description embedding the
error text, and the set and order of links the collector returns are
entirely independent of the article-fetch oracle — no fetch outcome can
drop an item. -/
theorem fetch_failure_item_retained :
    (∀ (http : String → Except String String) (url e : String),
        http url = Except.error e →
        extrair_conteudo_generico http url =
          "<p>Não foi possível carregar o texto completo desta notícia. (" ++ e ++ ")</p>") ∧
    (∀ (page : List Anchor) (h1 h2 : String → Except String String),
        (coletar_colider page h1).map Item.link = (coletar_colider page h2).map Item.link) := by
  constructor
  · intro http url e h
    unfold extrair_conteudo_generico
    rw [h]
  · intro page h1 h2
    unfold coletar_colider
    rw [List.map_take, List.map_take]
    unfold dedupFirst
    rw [dedupAux_map_link_congr _ _ [] (coletar_itens_map_link page h1 h2)]

/-- Witness for `fetch_failure_item_retained` at a concrete failing oracle. -/
theorem fetch_failure_item_retained_witness :
    (fun (_ : String) => (Except.error "timeout" : Except String String)) "u" =
      Except.error "timeout" ∧
    extrair_conteudo_generico (fun _ => Except.error "timeout") "u" =
      "<p>Não foi possível carregar o texto completo desta notícia. (timeout)</p>" :=
  ⟨rfl, fetch_failure_item_retained.1 (fun _ => Except.error "timeout") "u" "timeout" rfl⟩

/-- C5: refuted on the code as stated — because `coletar_colider` returns
`itens_unicos[:5]`, a duplicated URL whose first occurrence comes after the
first five distinct URLs yields ZERO candidates, not exactly one: this page
has two anchors resolving to `.../Imprensa/Noticias/6` (the pre-dedup list
holds both) yet the returned list holds no item with that URL. -/
theorem coletar_colider_bound_drops_dup_url :
    ((coletar_colider_itens
        [⟨"/Imprensa/Noticias/1", "t1"⟩, ⟨"/Imprensa/Noticias/2", "t2"⟩,
         ⟨"/Imprensa/Noticias/3", "t3"⟩, ⟨"/Imprensa/Noticias/4", "t4"⟩,
         ⟨"/Imprensa/Noticias/5", "t5"⟩, ⟨"/Imprensa/Noticias/6", "t6a"⟩,
         ⟨"/Imprensa/Noticias/6", "t6b"⟩] (fun _ => Except.error "e")).filter
      (fun it => it.link == "https://www.colider.mt.gov.br/Imprensa/Noticias/6")).length = 2 ∧
    ((coletar_colider
        [⟨"/Imprensa/Noticias/1", "t1"⟩, ⟨"/Imprensa/Noticias/2", "t2"⟩,
         ⟨"/Imprensa/Noticias/3", "t3"⟩, ⟨"/Imprensa/Noticias/4", "t4"⟩,
         ⟨"/Imprensa/Noticias/5", "t5"⟩, ⟨"/Imprensa/Noticias/6", "t6a"⟩,
         ⟨"/Imprensa/Noticias/6", "t6b"⟩] (fun _ => Except.error "e")).filter
      (fun it => it.link == "https://www.colider.mt.gov.br/Imprensa/Noticias/6")).length = 0 := by
  refine ⟨by decide, by decide⟩

/-- C5 (amended): the dedup loop itself does return exactly one candidate
per URL, at its first occurrence, and the returned (bounded) list has no
two items sharing a URL, in first-seen order: (a) the returned links are
pairwise distinct; (b) the returned list is a sublist of the pre-dedup
page-order list (first-seen order preserved, items unaltered); (c) before
the `[:5]` bound, filtering the deduplicated list by any URL yields exactly
the first pre-dedup occurrence of that URL. -/
theorem coletar_colider_dedup_spec :
    ∀ (page : List Anchor) (http : String → Except String String),
      ((coletar_colider page http).map Item.link).Nodup ∧
      List.Sublist (coletar_colider page http) (coletar_colider_itens page http) ∧
      ∀ u : String,
        (dedupFirst (coletar_colider_itens page http)).filter (fun it => it.link == u) =
          ((coletar_colider_itens page http).filter (fun it => it.link == u)).take 1 := by
  intro page http
  refine ⟨?_, ?_, ?_⟩
  · unfold coletar_colider dedupFirst
    have h1 : List.Sublist ((dedupFirstAux [] (coletar_colider_itens page http)).take 5)
        (dedupFirstAux [] (coletar_colider_itens page http)) := List.take_sublist _ _
    exact List.Nodup.sublist (h1.map Item.link) (dedupAux_links_nodup _ [])
  · unfold coletar_colider dedupFirst
    exact (List.take_sublist _ _).trans (dedupAux_sublist _ [])
  · intro u
    unfold dedupFirst
    exact dedupAux_filter _ [] u (by simp)

/-- C8: refuted on the code — `coletar_colider` performs no date/title
splitting: the anchor text "05 de Dezembro de 2025 Prefeitura anuncia
obra" becomes the item title verbatim, not "Prefeitura anuncia obra". -/
theorem coletar_colider_no_date_split :
    (coletar_colider
        [⟨"/Imprensa/Noticias/123", "05 de Dezembro de 2025 Prefeitura anuncia obra"⟩]
        (fun _ => Except.error "e")).map Item.titulo =
      ["05 de Dezembro de 2025 Prefeitura anuncia obra"] ∧
    (coletar_colider
        [⟨"/Imprensa/Noticias/123", "05 de Dezembro de 2025 Prefeitura anuncia obra"⟩]
        (fun _ => Except.error "e")).map Item.titulo ≠ ["Prefeitura anuncia obra"] := by
  refine ⟨by decide, by decide⟩

/-- C8 (amended): every item the collector returns takes its title from the
full visible text of some kept anchor of the page, whitespace-normalized by
`limpar_texto` — no date prefix is split off. -/
theorem coletar_colider_titulo_full_text :
    ∀ (page : List Anchor) (http : String → Except String String) (it : Item),
      it ∈ coletar_colider page http →
      ∃ a : Anchor, a ∈ page ∧ keepColider a = true ∧ it.titulo = limpar_texto a.text := by
  intro page http it hmem
  unfold coletar_colider at hmem
  have h1 : it ∈ dedupFirst (coletar_colider_itens page http) :=
    (List.take_sublist _ _).subset hmem
  have h2 : it ∈ coletar_colider_itens page http := by
    unfold dedupFirst at h1
    exact (dedupAux_sublist _ []).subset h1
  unfold coletar_colider_itens at h2
  obtain ⟨a, ha, hfa⟩ := List.mem_filterMap.mp h2
  by_cases hk : keepColider a = true
  · rw [if_pos hk] at hfa
    injection hfa with hfa2
    subst hfa2
    exact ⟨a, ha, hk, rfl⟩
  · rw [if_neg hk] at hfa
    cases hfa

/-- Witness for `coletar_colider_titulo_full_text` at a concrete page. -/
theorem coletar_colider_titulo_full_text_witness :
    (⟨"Obra", "https://www.colider.mt.gov.br/Imprensa/Noticias/7",
      "<p>Não foi possível carregar o texto completo desta notícia. (e)</p>", none⟩ : Item) ∈
      coletar_colider [⟨"/Imprensa/Noticias/7", "Obra"⟩] (fun _ => Except.error "e") ∧
    ∃ a : Anchor, a ∈ [(⟨"/Imprensa/Noticias/7", "Obra"⟩ : Anchor)] ∧ keepColider a = true ∧
      (⟨"Obra", "https://www.colider.mt.gov.br/Imprensa/Noticias/7",
        "<p>Não foi possível carregar o texto completo desta notícia. (e)</p>", none⟩ :
        Item).titulo = limpar_texto a.text :=
  ⟨by decide,
   coletar_colider_titulo_full_text [⟨"/Imprensa/Noticias/7", "Obra"⟩]
     (fun _ => Except.error "e") _ (by decide)⟩

/-- C6: refuted on the code — the truncation cuts at the last PERIOD, not
at a word boundary, and appends a period, not an ellipsis marker: for a
single 950-character word with no period, the code keeps exactly the first
900 characters (a mid-word cut) and appends `'.'`; the final three
characters are `"aa."`, so neither `"..."` nor `"…"` ends the result. -/
theorem truncar_cuts_mid_word_no_ellipsis :
    truncar (List.replicate 950 'a') 900 = List.replicate 900 'a' ++ ['.'] ∧
    (truncar (List.replicate 950 'a') 900).drop 898 = ['a', 'a', '.'] := by
  refine ⟨by decide, by decide⟩

/-- C6 (amended): a text longer than the cap is truncated to its first
`cap` characters, everything after the last period among them is dropped
(the whole prefix is kept, possibly cutting mid-word, when it contains no
period), and a period is appended; the result never exceeds `cap + 1`
characters and always ends with a period. -/
theorem truncar_spec :
    ∀ (texto : List Char) (cap : Nat), cap < texto.length →
      (truncar texto cap).length ≤ cap + 1 ∧
      (truncar texto cap).getLast? = some '.' ∧
      ∃ pre suf, texto.take cap = pre ++ suf ∧ truncar texto cap = pre ++ ['.'] ∧
        (('.' ∈ texto.take cap ∧ suf.head? = some '.' ∧ ¬ '.' ∈ suf.tail) ∨
         (¬ '.' ∈ texto.take cap ∧ suf = [])) := by
  intro texto cap hcap
  have htr : truncar texto cap = rsplitLastDot (texto.take cap) ++ ['.'] := by
    unfold truncar; rw [if_pos hcap]
  by_cases hdot : '.' ∈ texto.take cap
  · obtain ⟨pre, after, heq, hna, hrs⟩ := rsplit_dot (texto.take cap) hdot
    rw [htr, hrs]
    refine ⟨?_, List.getLast?_concat pre, pre, '.' :: after, heq, rfl,
      Or.inl ⟨hdot, rfl, hna⟩⟩
    have h1 : (texto.take cap).length ≤ cap := List.length_take_le cap texto
    have h2 : (texto.take cap).length = pre.length + (1 + after.length) := by
      rw [heq]; simp [List.length_append]; omega
    simp only [List.length_append, List.length_cons, List.length_nil]
    omega
  · have hrs := rsplit_no_dot (texto.take cap) hdot
    rw [htr, hrs]
    refine ⟨?_, List.getLast?_concat _, texto.take cap, [], by simp, rfl,
      Or.inr ⟨hdot, rfl⟩⟩
    have h1 : (texto.take cap).length ≤ cap := List.length_take_le cap texto
    simp only [List.length_append, List.length_cons, List.length_nil]
    omega

/-- Witness for `truncar_spec` at the concrete text "ab. cd" with cap 4. -/
theorem truncar_spec_witness :
    4 < "ab. cd".data.length ∧
    ((truncar "ab. cd".data 4).length ≤ 4 + 1 ∧
     (truncar "ab. cd".data 4).getLast? = some '.' ∧
     ∃ pre suf, "ab. cd".data.take 4 = pre ++ suf ∧ truncar "ab. cd".data 4 = pre ++ ['.'] ∧
       (('.' ∈ "ab. cd".data.take 4 ∧ suf.head? = some '.' ∧ ¬ '.' ∈ suf.tail) ∨
        (¬ '.' ∈ "ab. cd".data.take 4 ∧ suf = []))) :=
  ⟨by decide, truncar_spec "ab. cd".data 4 (by decide)⟩

end MTOnline
